import Mathlib

/-!
Verification of the region-tally core of the repository
(`tally_regions.py`): trajectory parser, region tally engine,
decoration transform and tally formatter, shallowly embedded in Lean.

Numeric model: Python floats are embedded as rationals.  Every numeric
literal appearing in the claims (10, 0, 15, 5, -5, 0.5, 2.5, ...) and
every arithmetic operation performed on them by the program
(comparison, multiplication by 0.5, division by small integers) is
exact in binary64, so the rational model agrees with the float
semantics on everything proved below.  Python `int` is embedded as `ℤ`.
-/

/-- A whitespace-delimited token of an input line, classified by which
numeric conversions succeed on it: `int n` is a token accepted by both
Python `int()` and `float()` (an integer literal), `real q` is a token
accepted by `float()` but not `int()` (such as `1.0` or `-3.5`), and
`word` is a token accepted by neither (such as `ITEM:`). -/
inductive Tok where
  | int (n : ℤ)
  | real (q : ℚ)
  | word
deriving DecidableEq

/-- Result of Python `int(token)`: succeeds exactly on integer literals. -/
def Tok.toInt : Tok → Option ℤ
  | .int n => some n
  | _ => none

/-- Result of Python `float(token)`: succeeds on integer and float
literals, embedding both as rationals. -/
def Tok.toRat : Tok → Option ℚ
  | .int n => some (n : ℚ)
  | .real q => some q
  | _ => none

/-- An atom record as built by `parse_traj`: the tuple
`(int(fields[0]), tuple(float(i) for i in fields[1:]))`. -/
abbrev Atom := ℤ × List ℚ

/-- A frame as built by `parse_traj`: the pair `(time_step, coords)`. -/
abbrev Frame := ℤ × List Atom

/-- The generator expression `tuple(float(i) for i in fields)`: converts
every token to a float in order, aborting on the first failure. -/
def mapRats : List Tok → Option (List ℚ)
  | [] => some []
  | t :: ts =>
    match t.toRat with
    | none => none
    | some q => (mapRats ts).map (fun qs => q :: qs)

/-- One atom line of the trajectory file, as read by `parse_traj`:
`fields = line.split()`, then `int(fields[0])` (an `IndexError` on an
empty field list and a `ValueError` on a non-integer first field both
abort the parse) and `float(i)` over `fields[1:]`.  No field-count
check is performed beyond the first field existing. -/
def parseAtomLine : List Tok → Option Atom
  | [] => none
  | f :: fs =>
    match f.toInt with
    | none => none
    | some t =>
      match mapRats fs with
      | none => none
      | some pos => some (t, pos)

/-- The `for _ in range(0, n_atoms)` loop of `parse_traj`: reads `n`
atom lines in order; reading past end of stream (Python `readline`
returning `''`, so `fields[0]` raises `IndexError`) or any malformed
line aborts.  Returns the parsed atoms and the remaining lines. -/
def parseAtoms : ℕ → List (List Tok) → Option (List Atom × List (List Tok))
  | 0, ls => some ([], ls)
  | _ + 1, [] => none
  | n + 1, l :: ls =>
    match parseAtomLine l with
    | none => none
    | some a =>
      match parseAtoms n ls with
      | none => none
      | some (as, rest) => some (a :: as, rest)

/-- The time-step line of a frame: `int(input_file.readline().split()[-1])`.
An empty token list (end of stream or a blank line) raises `IndexError`
on `[-1]`; a non-integer last token raises `ValueError`. -/
def parseTimeLine (l : List Tok) : Option ℤ :=
  match l.getLast? with
  | none => none
  | some t => t.toInt

/-- The atom-count header line of a frame: `int(first_line)` applied to
the whole line, which succeeds exactly when the line consists of a
single integer token. -/
def parseNLine : List Tok → Option ℤ
  | [t] => t.toInt
  | _ => none

/-- The `while True` loop of `parse_traj`, with an explicit fuel
argument standing in for the unbounded loop.  Each iteration of the
Python loop either terminates the parse or consumes at least two input
lines, so any fuel of at least `lines.length + 1` makes the `0` branch
unreachable; `parse_traj` below instantiates the fuel that way, making
this an exact model of the loop. -/
def parseTrajAux : ℕ → List (List Tok) → Option (List Frame)
  | 0, _ => none
  | _ + 1, [] => some []
  | fuel + 1, l :: rest =>
    match parseNLine l with
    | none => none
    | some n =>
      match rest with
      | [] => none
      | tl :: rest' =>
        match parseTimeLine tl with
        | none => none
        | some ts =>
          match parseAtoms n.toNat rest' with
          | none => none
          | some (atoms, rest'') =>
            match parseTrajAux fuel rest'' with
            | none => none
            | some frames => some ((ts, atoms) :: frames)

/-- The trajectory parser `parse_traj`, on the line-token level: repeats
frame parsing until end of stream (`first_line == ''`); end of stream
at a header position terminates normally, any exception aborts the
whole parse (modelled by `none`). -/
def parse_traj (lines : List (List Tok)) : Option (List Frame) :=
  parseTrajAux (lines.length + 1) lines

/-- The axis lookup `{'X': 0, 'Y': 1, 'Z': 2}[axis]` at the top of
`tally_atoms`; a `KeyError` on any other label is modelled by `none`. -/
def axisIdx (axis : String) : Option ℕ :=
  if axis = "X" then some 0
  else if axis = "Y" then some 1
  else if axis = "Z" then some 2
  else none

/-- The filter test `types is None or atom[0] in types` of `tally_atoms`. -/
def included (types : Option (List ℤ)) (a : Atom) : Bool :=
  match types with
  | none => true
  | some ts => ts.contains a.1

/-- The region-classification scan of `tally_atoms`: `region = 0`, then
for each boundary `i` in the given order, `if coord > i: break` else
`region += 1`. -/
def classifyRegion (coord : ℚ) : List ℚ → ℕ
  | [] => 0
  | b :: bs => if coord > b then 0 else classifyRegion coord bs + 1

/-- The statement `tally[region] += 1`: an index past the end of the
list raises `IndexError`, modelled by `none`. -/
def incCount : List ℕ → ℕ → Option (List ℕ)
  | [], _ => none
  | x :: xs, 0 => some ((x + 1) :: xs)
  | x :: xs, i + 1 => (incCount xs i).map (fun ys => x :: ys)

/-- The inner atom loop of `tally_atoms` for a single frame: each
included atom reads its coordinate `atom[1][idx]` (an out-of-range
component index raises `IndexError`), classifies it and increments the
tally slot. -/
def tallyFrameAtoms (coords : List ℚ) (idx : ℕ) (types : Option (List ℤ)) :
    List Atom → List ℕ → Option (List ℕ)
  | [], tally => some tally
  | a :: rest, tally =>
    if included types a then
      match a.2.get? idx with
      | none => none
      | some c =>
        match incCount tally (classifyRegion c coords) with
        | none => none
        | some tally' => tallyFrameAtoms coords idx types rest tally'
    else tallyFrameAtoms coords idx types rest tally

/-- The outer frame loop of `tally_atoms`: each frame starts from the
freshly allocated `[0 for _ in range(0, len(coords) + 1)]`. -/
def tallyFrames (coords : List ℚ) (idx : ℕ) (types : Option (List ℤ)) :
    List Frame → Option (List (ℤ × List ℕ))
  | [] => some []
  | f :: rest =>
    match tallyFrameAtoms coords idx types f.2 (List.replicate (coords.length + 1) 0) with
    | none => none
    | some t =>
      match tallyFrames coords idx types rest with
      | none => none
      | some ts => some ((f.1, t) :: ts)

/-- The tally engine `tally_atoms(traj, coords, axis, types)`.  The axis
lookup happens before any frame is visited, so an unknown axis yields
`none` with no per-frame work. -/
def tally_atoms (traj : List Frame) (coords : List ℚ) (axis : String)
    (types : Option (List ℤ)) : Option (List (ℤ × List ℕ)) :=
  match axisIdx axis with
  | none => none
  | some idx => tallyFrames coords idx types traj

/-- The decoration step of `main`:
`[(s * time_step, [i / n_atoms for i in t]) for s, t in raw_tally]`,
with `time_step` the time-step size (a float) and `n_atoms` the group
size (an int); both multiplication and division are exact real
arithmetic on the values involved. -/
def decorate (stepSize : ℚ) (groupSize : ℤ) (raw : List (ℤ × List ℕ)) :
    List (ℚ × List ℚ) :=
  raw.map (fun p => ((p.1 : ℚ) * stepSize, p.2.map (fun i => (i : ℚ) / (groupSize : ℚ))))

/-- Left-pad a digit string with zeros to the given width. -/
def padZeros (n : ℕ) (s : String) : String :=
  String.mk (List.replicate (n - s.length) '0') ++ s

/-- Python `str` applied to a float, modelled for the values this
development evaluates it on: a binary64 float that is integral (and
small) prints as the integer followed by `.0`, and one whose exact
value has a short finite decimal expansion prints that shortest
expansion.  Values outside those classes do not arise here. -/
def pyFloatStr (q : ℚ) : String :=
  if q.den = 1 then toString q.num ++ ".0"
  else
    match (List.range 20).find? (fun k => (q * (10 : ℚ) ^ (k + 1)).den = 1) with
    | some k =>
      let m := (q * (10 : ℚ) ^ (k + 1)).num
      let sign := if m < 0 then ("-") else ("")
      let ip := m.natAbs / 10 ^ (k + 1)
      let fp := m.natAbs % 10 ^ (k + 1)
      sign ++ toString ip ++ "." ++ padZeros (k + 1) (toString fp)
    | none => toString q

/-- One output line of `output_tally`: the scaled time followed by the
counts, space-joined, each rendered by `str` (all are floats after
decoration). -/
def formatLine (p : ℚ × List ℚ) : String :=
  String.intercalate (" ") (pyFloatStr p.1 :: p.2.map pyFloatStr)

/-- The formatter `output_tally`, producing the list of printed lines in
order. -/
def output_tally (tally : List (ℚ × List ℚ)) : List String :=
  tally.map formatLine

/-- The pipeline of `main` after argument parsing: parse the trajectory,
tally, decorate, format.  A parse or tally exception aborts the run
(`none`). -/
def run_pipeline (lines : List (List Tok)) (coords : List ℚ) (axis : String)
    (types : Option (List ℤ)) (stepSize : ℚ) (groupSize : ℤ) : Option (List String) :=
  match parse_traj lines with
  | none => none
  | some traj =>
    match tally_atoms traj coords axis types with
    | none => none
    | some raw => some (output_tally (decorate stepSize groupSize raw))

/-! ### Helper lemmas about the embedded operations -/

theorem incCount_sum (l : List ℕ) (i : ℕ) (l' : List ℕ) (h : incCount l i = some l') :
    l'.sum = l.sum + 1 := by
  induction l generalizing i l' with
  | nil => simp [incCount] at h
  | cons x xs ih =>
    cases i with
    | zero =>
      simp only [incCount, Option.some.injEq] at h
      subst h
      simp [List.sum_cons]
      omega
    | succ j =>
      simp only [incCount, Option.map_eq_some'] at h
      obtain ⟨ys, hy, rfl⟩ := h
      have hs := ih j ys hy
      simp [List.sum_cons, hs]
      omega

theorem incCount_length (l : List ℕ) (i : ℕ) (l' : List ℕ) (h : incCount l i = some l') :
    l'.length = l.length := by
  induction l generalizing i l' with
  | nil => simp [incCount] at h
  | cons x xs ih =>
    cases i with
    | zero =>
      simp only [incCount, Option.some.injEq] at h
      subst h
      simp
    | succ j =>
      simp only [incCount, Option.map_eq_some'] at h
      obtain ⟨ys, hy, rfl⟩ := h
      simp [ih j ys hy]

theorem incCount_of_lt (l : List ℕ) (i : ℕ) (h : i < l.length) :
    ∃ l', incCount l i = some l' ∧ l'.length = l.length := by
  induction l generalizing i with
  | nil => simp at h
  | cons x xs ih =>
    cases i with
    | zero => exact ⟨(x + 1) :: xs, rfl, rfl⟩
    | succ j =>
      obtain ⟨ys, hy, hlen⟩ := ih j (by simpa using h)
      exact ⟨x :: ys, by simp [incCount, hy], by simp [hlen]⟩

theorem classifyRegion_le (c : ℚ) (bs : List ℚ) : classifyRegion c bs ≤ bs.length := by
  induction bs with
  | nil => simp [classifyRegion]
  | cons b bs ih =>
    simp only [classifyRegion, List.length_cons]
    by_cases h : c > b
    · rw [if_pos h]
      omega
    · rw [if_neg h]
      omega

theorem tallyFrameAtoms_sum (coords : List ℚ) (idx : ℕ) (types : Option (List ℤ))
    (atoms : List Atom) (t0 t : List ℕ)
    (h : tallyFrameAtoms coords idx types atoms t0 = some t) :
    t.sum = t0.sum + atoms.countP (included types) := by
  induction atoms generalizing t0 with
  | nil =>
    simp only [tallyFrameAtoms, Option.some.injEq] at h
    subst h
    simp
  | cons a rest ih =>
    simp only [tallyFrameAtoms] at h
    rw [List.countP_cons]
    by_cases hinc : included types a = true
    · rw [if_pos hinc] at h
      cases hc : a.2.get? idx with
      | none => rw [hc] at h; cases h
      | some c =>
        simp only [hc] at h
        cases hi : incCount t0 (classifyRegion c coords) with
        | none => simp only [hi] at h; cases h
        | some t1 =>
          simp only [hi] at h
          have h1 := incCount_sum t0 _ t1 hi
          have h2 := ih t1 h
          rw [h2, h1]
          simp [hinc]
          omega
    · rw [if_neg hinc] at h
      have h2 := ih t0 h
      rw [Bool.not_eq_true] at hinc
      rw [h2, hinc]
      simp

theorem tallyFrameAtoms_length (coords : List ℚ) (idx : ℕ) (types : Option (List ℤ))
    (atoms : List Atom) (t0 t : List ℕ)
    (h : tallyFrameAtoms coords idx types atoms t0 = some t) :
    t.length = t0.length := by
  induction atoms generalizing t0 with
  | nil =>
    simp only [tallyFrameAtoms, Option.some.injEq] at h
    subst h
    rfl
  | cons a rest ih =>
    simp only [tallyFrameAtoms] at h
    by_cases hinc : included types a = true
    · rw [if_pos hinc] at h
      cases hc : a.2.get? idx with
      | none => rw [hc] at h; cases h
      | some c =>
        simp only [hc] at h
        cases hi : incCount t0 (classifyRegion c coords) with
        | none => simp only [hi] at h; cases h
        | some t1 =>
          simp only [hi] at h
          rw [ih t1 h, incCount_length t0 _ t1 hi]
    · rw [if_neg hinc] at h
      exact ih t0 h

theorem tallyFrames_spec (coords : List ℚ) (idx : ℕ) (types : Option (List ℤ))
    (traj : List Frame) (res : List (ℤ × List ℕ))
    (h : tallyFrames coords idx types traj = some res) :
    List.Forall₂
      (fun t fr => t.1 = fr.1 ∧
        tallyFrameAtoms coords idx types fr.2 (List.replicate (coords.length + 1) 0) = some t.2)
      res traj := by
  induction traj generalizing res with
  | nil =>
    simp only [tallyFrames, Option.some.injEq] at h
    subst h
    exact List.Forall₂.nil
  | cons fr rest ih =>
    simp only [tallyFrames] at h
    cases hf : tallyFrameAtoms coords idx types fr.2 (List.replicate (coords.length + 1) 0) with
    | none => rw [hf] at h; cases h
    | some t =>
      rw [hf] at h
      cases hr : tallyFrames coords idx types rest with
      | none => rw [hr] at h; cases h
      | some ts =>
        rw [hr] at h
        simp only [Option.some.injEq] at h
        subst h
        exact List.Forall₂.cons ⟨rfl, hf⟩ (ih ts hr)

theorem tallyFrameAtoms_skip (coords : List ℚ) (idx : ℕ) (types : Option (List ℤ))
    (atoms : List Atom) (t0 : List ℕ) (h : ∀ a ∈ atoms, included types a = false) :
    tallyFrameAtoms coords idx types atoms t0 = some t0 := by
  induction atoms with
  | nil => rfl
  | cons a rest ih =>
    have ha : included types a = false := h a (List.mem_cons_self a rest)
    simp only [tallyFrameAtoms, ha]
    exact ih (fun x hx => h x (List.mem_cons_of_mem a hx))

theorem tallyFrameAtoms_keep_filtered (coords : List ℚ) (idx : ℕ) (types : Option (List ℤ))
    (atoms : List Atom) (t0 : List ℕ) :
    tallyFrameAtoms coords idx types atoms t0 =
      tallyFrameAtoms coords idx types (atoms.filter (included types)) t0 := by
  induction atoms generalizing t0 with
  | nil => rfl
  | cons a rest ih =>
    by_cases hinc : included types a = true
    · rw [List.filter_cons_of_pos hinc]
      cases hc : a.2.get? idx with
      | none => simp only [tallyFrameAtoms, hinc, if_true, hc]
      | some c =>
        cases hi : incCount t0 (classifyRegion c coords) with
        | none => simp only [tallyFrameAtoms, hinc, if_true, hc, hi]
        | some t1 =>
          simp only [tallyFrameAtoms, hinc, if_true, hc, hi]
          exact ih t1
    · rw [Bool.not_eq_true] at hinc
      rw [List.filter_cons_of_neg (by simp [hinc])]
      simp only [tallyFrameAtoms, hinc]
      exact ih t0

theorem tallyFrames_empty_filter (coords : List ℚ) (idx : ℕ) (traj : List Frame) :
    tallyFrames coords idx (some []) traj =
      some (traj.map (fun fr => (fr.1, List.replicate (coords.length + 1) 0))) := by
  induction traj with
  | nil => rfl
  | cons fr rest ih =>
    have hskip := tallyFrameAtoms_skip coords idx (some []) fr.2
      (List.replicate (coords.length + 1) 0) (fun a _ => rfl)
    simp only [tallyFrames, hskip, ih, List.map_cons]

theorem tallyFrames_lengths (coords : List ℚ) (idx : ℕ) (types : Option (List ℤ))
    (traj : List Frame) (res : List (ℤ × List ℕ))
    (h : tallyFrames coords idx types traj = some res) :
    ∀ p ∈ res, p.2.length = coords.length + 1 := by
  induction traj generalizing res with
  | nil =>
    simp only [tallyFrames, Option.some.injEq] at h
    subst h
    intro p hp
    cases hp
  | cons fr rest ih =>
    simp only [tallyFrames] at h
    cases hf : tallyFrameAtoms coords idx types fr.2 (List.replicate (coords.length + 1) 0) with
    | none => rw [hf] at h; cases h
    | some t =>
      simp only [hf] at h
      cases hr : tallyFrames coords idx types rest with
      | none => simp only [hr] at h; cases h
      | some ts =>
        simp only [hr, Option.some.injEq] at h
        subst h
        intro p hp
        rcases List.mem_cons.mp hp with hp | hp
        · subst hp
          have := tallyFrameAtoms_length coords idx types fr.2 _ _ hf
          simpa using this
        · exact ih ts hr p hp

theorem mapRats_none (fs : List Tok) (t : Tok) (ht : t ∈ fs) (hb : t.toRat = none) :
    mapRats fs = none := by
  induction fs with
  | nil => cases ht
  | cons f rest ih =>
    rcases List.mem_cons.mp ht with h | h
    · subst h
      simp only [mapRats, hb]
    · simp only [mapRats]
      cases hf : f.toRat with
      | none => rfl
      | some q => simp only [ih h, Option.map_none']

theorem parseAtoms_consumes (n : ℕ) (lines : List (List Tok)) (as : List Atom)
    (rest : List (List Tok)) (h : parseAtoms n lines = some (as, rest)) :
    List.Forall₂ (fun a l => parseAtomLine l = some a) as (lines.take n) ∧
    rest = lines.drop n := by
  induction n generalizing lines as rest with
  | zero =>
    simp only [parseAtoms, Option.some.injEq, Prod.mk.injEq] at h
    obtain ⟨h1, h2⟩ := h
    subst h1
    subst h2
    exact ⟨List.Forall₂.nil, rfl⟩
  | succ n ih =>
    cases lines with
    | nil => simp [parseAtoms] at h
    | cons l ls =>
      simp only [parseAtoms] at h
      cases ha : parseAtomLine l with
      | none => simp only [ha] at h; cases h
      | some a =>
        simp only [ha] at h
        cases hr : parseAtoms n ls with
        | none => simp only [hr] at h; cases h
        | some p =>
          obtain ⟨as2, rest2⟩ := p
          simp only [hr, Option.some.injEq, Prod.mk.injEq] at h
          obtain ⟨h1, h2⟩ := h
          obtain ⟨hf, hd⟩ := ih ls as2 rest2 hr
          subst h1
          subst h2
          constructor
          · rw [List.take_succ_cons]
            exact List.Forall₂.cons ha hf
          · rw [List.drop_succ_cons]
            exact hd

theorem parseAtoms_abort (n : ℕ) (lines : List (List Tok))
    (hbad : ∃ l ∈ lines.take n, parseAtomLine l = none) :
    parseAtoms n lines = none := by
  induction n generalizing lines with
  | zero => simp at hbad
  | succ n ih =>
    cases lines with
    | nil => rfl
    | cons l ls =>
      obtain ⟨l', hmem, hl'⟩ := hbad
      rw [List.take_succ_cons] at hmem
      rcases List.mem_cons.mp hmem with hm | hm
      · subst hm
        simp only [parseAtoms, hl']
      · cases ha : parseAtomLine l with
        | none => simp only [parseAtoms, ha]
        | some a => simp only [parseAtoms, ha, ih ls ⟨l', hm, hl'⟩]

/-! ### Concrete inputs used by the scenario claims -/

/-- Token form of the pipeline scenario input: `N=3`, header line
`ITEM: TIMESTEP 200`, atoms `(1, 1.0 1.0 12.0)`, `(2, 1.0 1.0 5.0)`,
`(1, 1.0 1.0 -3.0)`. -/
def linesC6 : List (List Tok) :=
  [[Tok.int 3],
   [Tok.word, Tok.word, Tok.int 200],
   [Tok.int 1, Tok.real 1, Tok.real 1, Tok.real 12],
   [Tok.int 2, Tok.real 1, Tok.real 1, Tok.real 5],
   [Tok.int 1, Tok.real 1, Tok.real 1, Tok.real (-3)]]

/-! ### Claim theorems -/

/-- C1: the region classification is a pure function of the coordinate
and the boundary list, computed by the sequential short-circuit scan
(stop with the current counter on the first boundary with `c > bi`,
otherwise increment and continue; exhausting all boundaries yields
`len(boundaries)`), and on boundaries `[10, 0]` it sends 15 to region 0,
5 to region 1, -5 to region 2, exactly 10 to region 1 and exactly 0 to
region 2. -/
theorem classify_scan_concrete :
    (∀ c : ℚ, classifyRegion c [] = 0) ∧
    (∀ (c b : ℚ) (bs : List ℚ),
      classifyRegion c (b :: bs) = if c > b then 0 else classifyRegion c bs + 1) ∧
    (∀ (c : ℚ) (bs : List ℚ), (∀ b ∈ bs, ¬ c > b) → classifyRegion c bs = bs.length) ∧
    classifyRegion 15 [10, 0] = 0 ∧
    classifyRegion 5 [10, 0] = 1 ∧
    classifyRegion (-5) [10, 0] = 2 ∧
    classifyRegion 10 [10, 0] = 1 ∧
    classifyRegion 0 [10, 0] = 2 := by
  refine ⟨fun _ => rfl, fun _ _ _ => rfl, ?_, by decide, by decide, by decide, by decide, by decide⟩
  intro c bs h
  induction bs with
  | nil => rfl
  | cons b bs ih =>
    simp only [classifyRegion, List.length_cons]
    rw [if_neg (h b (List.mem_cons_self b bs))]
    rw [ih (fun x hx => h x (List.mem_cons_of_mem b hx))]

/-- C1 witness: the exhaustion conjunct instantiated at coordinate 0 and
boundaries `[10, 0]`. -/
theorem classify_scan_concrete_witness :
    classifyRegion 0 [10, 0] = ([(10 : ℚ), 0]).length :=
  classify_scan_concrete.2.2.1 0 [10, 0] (by decide)

/-- C2: on a strictly descending boundary list the short-circuit scan
computes exactly the number of boundaries `bi` with `c ≤ bi`. -/
theorem classify_descending_eq_count (c : ℚ) (bs : List ℚ)
    (hdesc : bs.Pairwise (fun a b => a > b)) :
    classifyRegion c bs = bs.countP (fun b => decide (c ≤ b)) := by
  induction bs with
  | nil => rfl
  | cons b bs ih =>
    rw [List.pairwise_cons] at hdesc
    obtain ⟨hgt, hp⟩ := hdesc
    rw [List.countP_cons]
    simp only [classifyRegion]
    by_cases hcb : c > b
    · rw [if_pos hcb]
      have hz : bs.countP (fun x => decide (c ≤ x)) = 0 := by
        rw [List.countP_eq_zero]
        intro a ha
        simp only [decide_eq_true_eq]
        exact not_le.mpr (lt_trans (hgt a ha) hcb)
      rw [hz, decide_eq_false (not_le.mpr hcb)]
      simp
    · rw [if_neg hcb, ih hp, decide_eq_true (not_lt.mp hcb)]
      simp

/-- C2 witness: boundaries `[10, 0]` are strictly descending and the scan
agrees with the count at coordinate 5. -/
theorem classify_descending_eq_count_witness :
    List.Pairwise (fun a b => a > b) [(10 : ℚ), 0] ∧
    classifyRegion 5 [10, 0] = List.countP (fun b => decide ((5 : ℚ) ≤ b)) [10, 0] :=
  ⟨by decide, classify_descending_eq_count 5 [10, 0] (by decide)⟩

/-- C3: with no type filter, every raw tally produced by `tally_atoms`
carries its frame's time step and counts all the frame's atoms: the sum
of the counts equals the number of atoms of the frame, whatever the
boundaries or axis. -/
theorem tally_no_filter_sum (traj : List Frame) (coords : List ℚ) (axis : String)
    (res : List (ℤ × List ℕ)) (h : tally_atoms traj coords axis none = some res) :
    List.Forall₂ (fun t fr => t.1 = fr.1 ∧ (t.2).sum = fr.2.length) res traj := by
  unfold tally_atoms at h
  cases ha : axisIdx axis with
  | none => rw [ha] at h; cases h
  | some idx =>
    rw [ha] at h
    have hs := tallyFrames_spec coords idx none traj res h
    refine List.Forall₂.imp ?_ hs
    rintro t fr ⟨h1, h2⟩
    refine ⟨h1, ?_⟩
    have hsum := tallyFrameAtoms_sum coords idx none fr.2 _ _ h2
    have hct : List.countP (included none) fr.2 = fr.2.length := by
      have hin : (included none) = (fun _ : Atom => true) := by
        funext a
        rfl
      rw [hin]
      exact congrFun List.countP_true fr.2
    rw [hsum, hct]
    simp [List.sum_replicate]

/-- C3 witness: the three-atom frame of the scenario, boundaries
`[10, 0]`, axis `Z`, no filter. -/
theorem tally_no_filter_sum_witness :
    List.Forall₂
      (fun (t : ℤ × List ℕ) (fr : Frame) => t.1 = fr.1 ∧ (t.2).sum = fr.2.length)
      [(200, [1, 1, 1])]
      [(200, [(1, [1, 1, 12]), (2, [1, 1, 5]), (1, [1, 1, -3])])] :=
  tally_no_filter_sum [(200, [(1, [1, 1, 12]), (2, [1, 1, 5]), (1, [1, 1, -3])])]
    [10, 0] ("Z") [(200, [1, 1, 1])] (by decide)

/-- C4: with a non-empty type filter, every raw tally counts exactly the
atoms whose type is in the filter (the sum of the counts is their
number), and atoms outside the filter contribute to no region's count:
dropping them from the frame leaves the whole per-frame tally
unchanged. -/
theorem tally_filter_sum (traj : List Frame) (coords : List ℚ) (axis : String)
    (tys : List ℤ) (res : List (ℤ × List ℕ)) (hne : tys ≠ [])
    (h : tally_atoms traj coords axis (some tys) = some res) :
    List.Forall₂
      (fun t fr => t.1 = fr.1 ∧ (t.2).sum = fr.2.countP (fun a => tys.contains a.1))
      res traj ∧
    ∀ (idx : ℕ) (atoms : List Atom) (t0 : List ℕ),
      tallyFrameAtoms coords idx (some tys) atoms t0 =
        tallyFrameAtoms coords idx (some tys) (atoms.filter (fun a => tys.contains a.1)) t0 := by
  constructor
  · unfold tally_atoms at h
    cases ha : axisIdx axis with
    | none => rw [ha] at h; cases h
    | some idx =>
      rw [ha] at h
      have hs := tallyFrames_spec coords idx (some tys) traj res h
      refine List.Forall₂.imp ?_ hs
      rintro t fr ⟨h1, h2⟩
      refine ⟨h1, ?_⟩
      have hsum := tallyFrameAtoms_sum coords idx (some tys) fr.2 _ _ h2
      have hin : (included (some tys)) = (fun a : Atom => tys.contains a.1) := by
        funext a
        rfl
      rw [hsum, hin]
      simp [List.sum_replicate]
  · intro idx atoms t0
    have hk := tallyFrameAtoms_keep_filtered coords idx (some tys) atoms t0
    have heq : (included (some tys)) = (fun a : Atom => tys.contains a.1) := by
      funext a
      rfl
    rw [heq] at hk
    exact hk

/-- C4 witness: filter `{1}` on the scenario frame keeps two of the three
atoms. -/
theorem tally_filter_sum_witness :
    List.Forall₂
      (fun (t : ℤ × List ℕ) (fr : Frame) =>
        t.1 = fr.1 ∧ (t.2).sum = fr.2.countP (fun a => List.contains [(1 : ℤ)] a.1))
      [(200, [1, 0, 1])]
      [(200, [(1, [1, 1, 12]), (2, [1, 1, 5]), (1, [1, 1, -3])])] ∧
    ∀ (idx : ℕ) (atoms : List Atom) (t0 : List ℕ),
      tallyFrameAtoms [10, 0] idx (some [1]) atoms t0 =
        tallyFrameAtoms [10, 0] idx (some [1])
          (atoms.filter (fun a => List.contains [(1 : ℤ)] a.1)) t0 :=
  tally_filter_sum [(200, [(1, [1, 1, 12]), (2, [1, 1, 5]), (1, [1, 1, -3])])]
    [10, 0] ("Z") [1] [(200, [1, 0, 1])] (by decide) (by decide)

/-- C5 counterexample: an atom line with fewer than the expected fields
(a type id and only two position components, `1 2.0 3.0`) does not make
the parser fail; the frame parses successfully and keeps the short
position tuple. -/
theorem short_atom_line_parse_ok :
    parse_traj [[Tok.int 1], [Tok.word, Tok.int 200], [Tok.int 1, Tok.real 2, Tok.real 3]] =
      some [(200, [(1, [2, 3])])] := by
  rfl

/-- C5 (amended): the parser fails, without recovery or skipping, on an
atom line that is empty, whose first field is not an integer, or whose
later fields are not numeric; a malformed line among the frame's `N`
atom lines makes the whole atom-block parse fail, and a successful
parse consumes exactly the first `N` lines, each yielding its atom in
order.  The number of position components is not validated: a line with
fewer than three components still parses (see the counterexample). -/
theorem parse_atom_lines_strict :
    parseAtomLine [] = none ∧
    (∀ (f : Tok) (fs : List Tok), f.toInt = none → parseAtomLine (f :: fs) = none) ∧
    (∀ (f t : Tok) (fs : List Tok), t ∈ fs → t.toRat = none →
      parseAtomLine (f :: fs) = none) ∧
    (∀ (n : ℕ) (lines : List (List Tok)), (∃ l ∈ lines.take n, parseAtomLine l = none) →
      parseAtoms n lines = none) ∧
    (∀ (n : ℕ) (lines : List (List Tok)) (as : List Atom) (rest : List (List Tok)),
      parseAtoms n lines = some (as, rest) →
      List.Forall₂ (fun a l => parseAtomLine l = some a) as (lines.take n) ∧
      rest = lines.drop n) := by
  refine ⟨rfl, ?_, ?_, parseAtoms_abort, parseAtoms_consumes⟩
  · intro f fs hf
    simp only [parseAtomLine, hf]
  · intro f t fs ht hb
    simp only [parseAtomLine]
    cases hf : f.toInt with
    | none => rfl
    | some v => simp only [mapRats_none fs t ht hb]

/-- C5 witness: a non-integer first field fails, and a well-formed
single atom line is consumed without remainder. -/
theorem parse_atom_lines_strict_witness :
    parseAtomLine [Tok.word, Tok.int 1] = none ∧
    (List.Forall₂ (fun (a : Atom) (l : List Tok) => parseAtomLine l = some a)
        [(1, [2])] ([[Tok.int 1, Tok.real 2]].take 1) ∧
      ([] : List (List Tok)) = [[Tok.int 1, Tok.real 2]].drop 1) :=
  ⟨parse_atom_lines_strict.2.1 Tok.word [Tok.int 1] (by rfl),
   parse_atom_lines_strict.2.2.2.2 1 [[Tok.int 1, Tok.real 2]] [(1, [2])] [] (by rfl)⟩

/-- Evaluation of the pipeline on the scenario input, shared by the two
scenario theorems: parsing and tallying reduce definitionally, while the
decoration arithmetic (irreducible rational multiplication and division)
is evaluated by `simp`. -/
theorem pipeline_scenario_eval :
    run_pipeline linesC6 [10, 0] ("Z") none 1 1 = some ["200.0 1.0 1.0 1.0"] := by
  have h1 : parse_traj linesC6 =
      some [(200, [(1, [1, 1, 12]), (2, [1, 1, 5]), (1, [1, 1, -3])])] := by rfl
  have h2 : tally_atoms [(200, [(1, [1, 1, 12]), (2, [1, 1, 5]), (1, [1, 1, -3])])]
      [10, 0] ("Z") none = some [(200, [1, 1, 1])] := by decide
  have h3 : decorate 1 1 [(200, [1, 1, 1])] = [((200 : ℚ), [(1 : ℚ), 1, 1])] := by
    simp [decorate]
  have h4 : output_tally [((200 : ℚ), [(1 : ℚ), 1, 1])] = ["200.0 1.0 1.0 1.0"] := by
    decide
  simp only [run_pipeline, h1, h2, h3, h4]

/-- C6 counterexample: on the scenario input the pipeline does not emit
the line `200 1 1 1`: after decoration every field is a Python float,
so each is printed with a trailing `.0`. -/
theorem pipeline_scenario_text_ne :
    run_pipeline linesC6 [10, 0] ("Z") none 1 1 ≠ some ["200 1 1 1"] := by
  intro hcontra
  rw [pipeline_scenario_eval] at hcontra
  exact absurd hcontra (by decide)

/-- C6 (amended): on the scenario input (frame `N=3`, header
`ITEM: TIMESTEP 200`, atoms `(1, 1 1 12)`, `(2, 1 1 5)`, `(1, 1 1 -3)`,
axis `Z`, boundaries `[10, 0]`, no filter, time-step size 1, group size
1) the pipeline emits exactly the single line `200.0 1.0 1.0 1.0` —
the region counts of the claim, but in float formatting. -/
theorem pipeline_scenario_text :
    run_pipeline linesC6 [10, 0] ("Z") none 1 1 = some ["200.0 1.0 1.0 1.0"] :=
  pipeline_scenario_eval

/-- C7: the decoration applied to each raw tally is exactly
`scaled_time = time_step * time_step_size` and
`counts[i] = raw_counts[i] / group_size`, with exact rational
multiplication and division: raw count 5 at group size 2 gives 2.5 (not
the integer 2), and raw time step 100 at step size 0.5 gives 50.0. -/
theorem decorate_transform_spec :
    (∀ (stepSize : ℚ) (groupSize : ℤ) (raw : List (ℤ × List ℕ)),
      List.Forall₂
        (fun d r => d.1 = (r.1 : ℚ) * stepSize ∧
          d.2 = r.2.map (fun i => (i : ℚ) / (groupSize : ℚ)))
        (decorate stepSize groupSize raw) raw) ∧
    decorate 1 2 [(0, [5])] = [(0, [(2.5 : ℚ)])] ∧
    (5 : ℚ) / 2 ≠ 2 ∧
    decorate (0.5 : ℚ) 1 [(100, [])] = [((50.0 : ℚ), [])] := by
  refine ⟨?_, by norm_num [decorate], by norm_num, by norm_num [decorate]⟩
  intro s g raw
  induction raw with
  | nil => exact List.Forall₂.nil
  | cons p ps ih => exact List.Forall₂.cons ⟨rfl, rfl⟩ ih

/-- C8: any axis label other than the three recognized ones makes
`tally_atoms` fail before any frame is processed: the result is `none`
for every trajectory, boundary list and filter, with no tally entry
produced for any frame. -/
theorem unknown_axis_fails (axis : String) (h1 : axis ≠ "X") (h2 : axis ≠ "Y")
    (h3 : axis ≠ "Z") (traj : List Frame) (coords : List ℚ)
    (types : Option (List ℤ)) :
    tally_atoms traj coords axis types = none := by
  unfold tally_atoms axisIdx
  rw [if_neg h1, if_neg h2, if_neg h3]

/-- C8 witness: axis `W` on a non-empty trajectory. -/
theorem unknown_axis_fails_witness :
    tally_atoms [(0, [(1, [0, 0, 0])])] [] ("W") none = none :=
  unknown_axis_fails ("W") (by decide) (by decide) (by decide)
    [(0, [(1, [0, 0, 0])])] [] none

/-- C9: the empty type filter (unlike the absent filter) excludes every
atom, so each frame of the trajectory yields the freshly allocated
all-zero count list of length `len(boundaries) + 1`, and the run is not
an error. -/
theorem empty_filter_all_zero (traj : List Frame) (coords : List ℚ) (axis : String)
    (idx : ℕ) (h : axisIdx axis = some idx) :
    tally_atoms traj coords axis (some []) =
      some (traj.map (fun fr => (fr.1, List.replicate (coords.length + 1) 0))) := by
  unfold tally_atoms
  rw [h]
  exact tallyFrames_empty_filter coords idx traj

/-- C9 witness: a frame with one atom of type 1, boundaries `[10, 0]`,
axis `Z`, filter `{}`: the tally is all-zero, not a count of the atom. -/
theorem empty_filter_all_zero_witness :
    tally_atoms [(7, [(1, [0, 0, 3])])] [10, 0] ("Z") (some []) =
      some [(7, [0, 0, 0])] :=
  empty_filter_all_zero [(7, [(1, [0, 0, 3])])] [10, 0] ("Z") 2 (by decide)

/-- C10: for every coordinate and boundary list (of any length and
order) the classification scan yields a region index between 0 and
`len(boundaries)` inclusive, so `counts[region] += 1` is an in-bounds
update of any count list of length `len(boundaries) + 1`, and every
tally emitted by `tally_atoms` has exactly `len(boundaries) + 1`
entries. -/
theorem region_index_in_bounds :
    (∀ (c : ℚ) (bs : List ℚ), classifyRegion c bs ≤ bs.length) ∧
    (∀ (l : List ℕ) (i : ℕ), i < l.length →
      ∃ l', incCount l i = some l' ∧ l'.length = l.length) ∧
    (∀ (c : ℚ) (bs : List ℚ) (tally : List ℕ), tally.length = bs.length + 1 →
      (incCount tally (classifyRegion c bs)).isSome = true) ∧
    (∀ (traj : List Frame) (coords : List ℚ) (axis : String)
      (types : Option (List ℤ)) (res : List (ℤ × List ℕ)),
      tally_atoms traj coords axis types = some res →
      ∀ p ∈ res, p.2.length = coords.length + 1) := by
  refine ⟨classifyRegion_le, incCount_of_lt, ?_, ?_⟩
  · intro c bs tally ht
    have hlt : classifyRegion c bs < tally.length := by
      rw [ht]
      exact Nat.lt_succ_of_le (classifyRegion_le c bs)
    obtain ⟨l', hl, _⟩ := incCount_of_lt tally _ hlt
    rw [hl]
    rfl
  · intro traj coords axis types res h p hp
    unfold tally_atoms at h
    cases ha : axisIdx axis with
    | none => rw [ha] at h; cases h
    | some idx =>
      rw [ha] at h
      exact tallyFrames_lengths coords idx types traj res h p hp

/-- C10 witness: in-bounds increment on a three-slot count list at index
2, and a successful increment at the region of coordinate 5 among
boundaries `[10, 0]`. -/
theorem region_index_in_bounds_witness :
    (∃ l', incCount [0, 0, 0] 2 = some l' ∧ l'.length = ([0, 0, 0] : List ℕ).length) ∧
    (incCount [0, 0, 0] (classifyRegion 5 [10, 0])).isSome = true :=
  ⟨region_index_in_bounds.2.1 [0, 0, 0] 2 (by decide),
   region_index_in_bounds.2.2.1 5 [10, 0] [0, 0, 0] (by decide)⟩

/-- C7 witness: the general decoration shape instantiated on the
concrete raw tally `[(0, [5])]` with step size 1 and group size 2. -/
theorem decorate_transform_spec_witness :
    List.Forall₂
      (fun (d : ℚ × List ℚ) (r : ℤ × List ℕ) =>
        d.1 = (r.1 : ℚ) * 1 ∧ d.2 = r.2.map (fun i => (i : ℚ) / ((2 : ℤ) : ℚ)))
      (decorate 1 2 [(0, [5])]) [(0, [5])] :=
  decorate_transform_spec.1 1 2 [(0, [5])]

/-! ### Adequacy of the parser fuel

The fuel instantiated by `parse_traj` is justified below: any fuel
strictly larger than the number of remaining lines produces the same
result, so the `0` branch of `parseTrajAux` never fires and the model
coincides with Python's unbounded `while` loop. -/

theorem parseAtoms_rest_le (n : ℕ) (ls : List (List Tok)) (as : List Atom)
    (rest : List (List Tok)) (h : parseAtoms n ls = some (as, rest)) :
    rest.length ≤ ls.length := by
  have hd := (parseAtoms_consumes n ls as rest h).2
  subst hd
  rw [List.length_drop]
  exact Nat.sub_le _ _

theorem parseTrajAux_fuel_irrelevant (fuel fuel' : ℕ) (lines : List (List Tok))
    (h : lines.length < fuel) (h' : lines.length < fuel') :
    parseTrajAux fuel lines = parseTrajAux fuel' lines := by
  induction fuel generalizing fuel' lines with
  | zero => omega
  | succ f ih =>
    cases fuel' with
    | zero => omega
    | succ f' =>
      cases lines with
      | nil => rfl
      | cons l rest =>
        cases hn : parseNLine l with
        | none => simp only [parseTrajAux, hn]
        | some n =>
          cases rest with
          | nil => simp only [parseTrajAux, hn]
          | cons tl rest' =>
            cases ht : parseTimeLine tl with
            | none => simp only [parseTrajAux, hn, ht]
            | some ts =>
              cases hpa : parseAtoms n.toNat rest' with
              | none => simp only [parseTrajAux, hn, ht, hpa]
              | some p =>
                obtain ⟨atoms, rest2⟩ := p
                have hle := parseAtoms_rest_le n.toNat rest' atoms rest2 hpa
                simp only [List.length_cons] at h h'
                have hrec := ih f' rest2 (by omega) (by omega)
                simp only [parseTrajAux, hn, ht, hpa, hrec]

theorem parse_traj_fuel_adequate (fuel : ℕ) (lines : List (List Tok))
    (h : lines.length < fuel) :
    parseTrajAux fuel lines = parse_traj lines :=
  parseTrajAux_fuel_irrelevant fuel (lines.length + 1) lines h (Nat.lt_succ_self _)
